import Mathlib

/-!
Verification development for the Pigeonhole Sieve implementation
(lib-sieve).  The definitions below are shallow embeddings of the C
functions in `src/lib-sieve`; each is annotated with the file and
function it embeds.  Theorems at the end of the file settle the
spec claims against these definitions.
-/

namespace Pigeonhole

/-
=======================================================================
Execution exit codes
=======================================================================
-/

/-- Modelled from the spec: the interpreter/execution exit codes
(`SIEVE_EXEC_*`, declared in the `sieve-common.h` header which is not
part of the provided sources; §7 of the spec lists the error kinds).
`ok` is the only positive code; `failure` is the normal runtime-failure
status; the remaining codes are negative. -/
inductive SieveExec where
  | ok
  | failure
  | tempFailure
  | binCorrupt
  | keepFailed
  | resourceLimit
  deriving DecidableEq, Repr

/-- Modelled from the spec: the integer value of each exit code, as used
by comparisons such as `ret > 0` in `sieve.c`.  Success is positive,
the failure codes are zero or negative. -/
def SieveExec.code : SieveExec → Int
  | .ok => 1
  | .failure => 0
  | .tempFailure => -1
  | .binCorrupt => -2
  | .keepFailed => -3
  | .resourceLimit => -4

/-
=======================================================================
Size test (src/lib-sieve/tst-size.c)
=======================================================================
-/

/-- The two size-test opcodes (`tst_size_over_opcode` /
`tst_size_under_opcode` in tst-size.c). -/
inductive SizeOp where
  | over
  | under
  deriving DecidableEq, Repr

/-- Embeds `tst_size_opcode_execute` (tst-size.c).  The operand read
(`sieve_opr_number_read`) and the message-size lookup (`tst_size_get`)
are fallible; a `none` for either makes the opcode fail (C returns
FALSE) and the test register is not written, modelled by the outer
`Option`.  Otherwise the test register is set to `mail_size > limit`
for SIZE-OVER and `mail_size < limit` for SIZE-UNDER. -/
def tst_size_opcode_execute (op : SizeOp) (limit : Option Nat)
    (mailSize : Option Nat) : Option Bool :=
  match limit with
  | none => none
  | some l =>
    match mailSize with
    | none => none
    | some s =>
      match op with
      | .over => some (decide (s > l))
      | .under => some (decide (s < l))

/-- The context discriminator stored in `tst_size_context_data.type`
(tst-size.c). -/
inductive SizeType where
  | unassigned
  | sizeUnder
  | sizeOver
  deriving DecidableEq, Repr

/-- The `:over` / `:under` tags of the size test. -/
inductive SizeTag where
  | over
  | under
  deriving DecidableEq, Repr

/-- The duplicate-tag diagnostic `TST_SIZE_ERROR_DUP_TAG`
(tst-size.c). -/
def tstSizeErrorDupTag : String :=
  "exactly one of the ':under' or ':over' tags must be specified for the size test, but more were found"

/-- The missing-tag diagnostic emitted by `tst_size_validate`
(tst-size.c). -/
def tstSizeErrorReqTag : String :=
  "the size test requires either the :under or the :over tag to be specified"

/-- Embeds `tst_size_validate_over_tag` / `tst_size_validate_under_tag`
(tst-size.c): if the context type was already assigned the duplicate-tag
error is reported, otherwise the discriminator is set according to the
tag. -/
def tst_size_validate_tag (t : SizeTag) (ctx : SizeType) :
    Except String SizeType :=
  if ctx ≠ SizeType.unassigned then .error tstSizeErrorDupTag
  else
    match t with
    | .over => .ok SizeType.sizeOver
    | .under => .ok SizeType.sizeUnder

/-- The tag arguments of a size test are validated in order, starting
from the `SIZE_UNASSIGNED` context set up by `tst_size_pre_validate`;
the first tag-validator failure aborts validation of the command. -/
def tst_size_process_tags : SizeType → List SizeTag → Except String SizeType
  | ctx, [] => .ok ctx
  | ctx, t :: rest =>
    match tst_size_validate_tag t ctx with
    | .error e => .error e
    | .ok ctx' => tst_size_process_tags ctx' rest

/-- The positional-argument diagnostic produced by
`sieve_validate_positional_argument` when the limit argument is absent
or not a number (sieve-commands.c, reached from `tst_size_validate`). -/
def tstSizeErrorLimitArg : String :=
  "the size test expects a number as positional argument 1 (limit), but none was found or it has the wrong type"

/-- Embeds `tst_size_validate` (tst-size.c): after tag processing, an
unassigned discriminator is an error; then the positional `limit`
argument must be a number.  `argIsNumber` abstracts the outcome of
`sieve_validate_positional_argument`. -/
def tst_size_validate (ctx : SizeType) (argIsNumber : Bool) :
    Except String Unit :=
  if ctx = SizeType.unassigned then .error tstSizeErrorReqTag
  else if ¬argIsNumber then .error tstSizeErrorLimitArg
  else .ok ()

/-- The complete validation pipeline of one size test: pre-validate
initialises the context to `SIZE_UNASSIGNED`, the tags are validated in
order, and finally `tst_size_validate` runs. -/
def tst_size_validation (tags : List SizeTag) (argIsNumber : Bool) :
    Except String Unit :=
  match tst_size_process_tags SizeType.unassigned tags with
  | .error e => .error e
  | .ok ctx => tst_size_validate ctx argIsNumber

/-
=======================================================================
sieve_execute (src/lib-sieve/sieve.c)
=======================================================================
-/

/-- Embeds the status evaluation of `sieve_execute` (sieve.c):
`run` is the status returned by `sieve_run`, `execRes` the status
`sieve_result_execute` would return if called, and `keepRes` the status
`sieve_result_implicit_keep` would return if called.  The result is the
final return value paired with whether the implicit keep was attempted.
If the run succeeded (`ret > 0`) the result is executed; if the run
ended with the normal runtime failure the implicit keep is attempted
and its status mapped (OK keeps ret = failure, TEMP_FAILURE propagates,
anything else becomes KEEP_FAILED); any other status is returned to the
caller untouched (no implicit keep, e.g. for corrupt binaries). -/
def sieve_execute (run execRes keepRes : SieveExec) : SieveExec × Bool :=
  if run.code > 0 then (execRes, false)
  else if run = SieveExec.failure then
    match keepRes with
    | .ok => (SieveExec.failure, true)
    | .tempFailure => (SieveExec.tempFailure, true)
    | _ => (SieveExec.keepFailed, true)
  else (run, false)

/-
=======================================================================
Multiscript controller (src/lib-sieve/sieve.c)
=======================================================================
-/

/-- The fields of `struct sieve_multiscript` (sieve.c) relevant to
`sieve_multiscript_tempfail`: the last recorded status, whether the
chain is still active, whether a test stream is attached (test mode,
`sieve_multiscript_start_test`), and whether part of the accumulated
result has already been executed (`sieve_result_executed`). -/
structure Multiscript where
  status : SieveExec
  active : Bool
  teststream : Bool
  resultExecuted : Bool
  deriving DecidableEq, Repr

/-- Embeds `sieve_multiscript_tempfail` (sieve.c).  `keepRes` is the
status `sieve_result_implicit_keep` would return if called.  The C
function initialises `ret` to the recorded status; when the chain is
still active it becomes TEMP_FAILURE, except that in execute mode
(no test stream) with part of the result already executed the function
falls back to implicit keep: OK maps to FAILURE, anything else to
KEEP_FAILED. -/
def sieve_multiscript_tempfail (m : Multiscript) (keepRes : SieveExec) :
    SieveExec :=
  let ret := m.status
  if m.active then
    let ret := SieveExec.tempFailure
    if !m.teststream && m.resultExecuted then
      match keepRes with
      | .ok => SieveExec.failure
      | _ => SieveExec.keepFailed
    else ret
  else ret

/-
=======================================================================
Require command placement (src/lib-sieve/cmd-require.c)
=======================================================================
-/

/-- A top-level command of a script, as far as the require-placement
check is concerned: either a `require` command or any other command. -/
inductive TopCmd where
  | require
  | other
  deriving DecidableEq, Repr

/-- The placement diagnostic of `cmd_require_validate`
(cmd-require.c). -/
def requirePlacementMsg : String :=
  "require commands can only be placed at top level at the beginning of the file"

/-- The C condition `prev_context != NULL && prev_context->command !=
&cmd_require` of `cmd_require_validate` (cmd-require.c): the previous
command context exists and is not a require command. -/
def prevIsNonRequire : Option TopCmd → Bool
  | none => false
  | some TopCmd.require => false
  | some TopCmd.other => true

/-- Embeds the placement check of `cmd_require_validate`
(cmd-require.c): the command fails, with the placement diagnostic, when
it is not at top level, or when it is not the first command and the
previous command context exists and is not a require command.  Returns
the command validation outcome together with the emitted diagnostic. -/
def cmd_require_validate_place (toplevel : Bool) (isFirst : Bool)
    (prev : Option TopCmd) : Bool × Option String :=
  if !toplevel || (!isFirst && prevIsNonRequire prev) then
    (false, some requirePlacementMsg)
  else
    (true, none)

/-- The placement validation of the top-level command at position `k` of
a script whose top-level commands are `cmds`: it is at top level, it is
first iff `k = 0`, and its previous command context is `cmds[k-1]`. -/
def validate_require_at (cmds : List TopCmd) (k : Nat) : Bool × Option String :=
  cmd_require_validate_place true (k = 0)
    (if k = 0 then none else cmds[k-1]?)

/-
=======================================================================
Address matching (src/lib-sieve/sieve-address-parts.c)
=======================================================================
-/

/-- One parsed RFC 2822 address (`struct message_address` from the
Dovecot library, an external collaborator of lib-sieve); the chain of
`next` pointers is modelled as a Lean list.  `mailbox` and `domain` are
NULL-able strings. -/
structure MessageAddress where
  mailbox : Option String
  domain : Option String
  deriving DecidableEq, Repr

/-- Embeds the matching loop of `sieve_address_match`
(sieve-address-parts.c), with the parsed address list
(`message_address_parse` of the input data) as the `addrs` parameter:
while not matched, each address with a non-NULL domain has the
address-part extractor applied (`addrp->extract_from`), and a non-NULL
extracted part that satisfies `sieve_match_value` sets `matched`;
addresses without a domain are skipped. -/
def sieve_address_match (extract : MessageAddress → Option String)
    (matchValue : String → Bool) : List MessageAddress → Bool
  | [] => false
  | a :: rest =>
    if a.domain.isSome then
      match extract a with
      | some part =>
        if matchValue part then true
        else sieve_address_match extract matchValue rest
      | none => sieve_address_match extract matchValue rest
    else sieve_address_match extract matchValue rest

/-- Embeds `addrp_localpart_extract_from` (sieve-address-parts.c):
returns the mailbox part. -/
def addrp_localpart_extract_from (a : MessageAddress) : Option String :=
  a.mailbox

/-- Embeds `addrp_domain_extract_from` (sieve-address-parts.c):
returns the domain part. -/
def addrp_domain_extract_from (a : MessageAddress) : Option String :=
  a.domain

/-- Embeds `addrp_all_extract_from` (sieve-address-parts.c):
`t_strconcat(mailbox, "@", domain)`.  Within `sieve_address_match` it is
only reached when the domain is non-NULL and the mailbox is non-NULL
(asserted by the caller); in that case the result is
`mailbox ++ "@" ++ domain`. -/
def addrp_all_extract_from (a : MessageAddress) : Option String :=
  match a.mailbox, a.domain with
  | some m, some d => some (m ++ "@" ++ d)
  | _, _ => none

/-
=======================================================================
Extension registry (src/lib-sieve/sieve-extensions.c)
=======================================================================
-/

/-- The C test `*s == c` on a NUL-terminated string: whether the first
character of `s` is `c` (false for the empty string, whose first byte is
NUL). -/
def strHeadIs (c : Char) (s : String) : Bool :=
  match s.data with
  | [] => false
  | c' :: _ => c' = c

/-- Cutting a character list at every space, as the
`ep = strchr(bp, ' ')` loop of `sieve_extensions_set_string` does;
`cur` is the (reversed) token accumulated so far. -/
def splitAux : List Char → List Char → List (List Char)
  | [], cur => [cur.reverse]
  | c :: rest, cur =>
    if c = ' ' then cur.reverse :: splitAux rest []
    else splitAux rest (c :: cur)

/-- The statically allocated part of a `struct sieve_extension`: its
name, whether it carries an id cell (`_id != NULL`), and whether its
`load` handler succeeds. -/
structure ExtDef where
  name : String
  hasId : Bool
  loadOk : Bool
  deriving DecidableEq, Repr

/-- One `struct sieve_extension_registration`.  `name` is the key under
which the registration was inserted into `extension_index`; it is always
the registered extension's name, so the C reads of `extension->name`
are modelled by reads of this field.  `ext` is `ereg->extension`, NULL
until registration completes.  `idVal` models the contents of the
extension's id cell `*(extension->_id)` (meaningful only when the
extension has one; id cells start out at -1). -/
structure ExtReg where
  name : String
  ext : Option ExtDef
  id : Nat
  idVal : Int
  required : Bool
  loaded : Bool
  deriving DecidableEq, Repr

/-- The global registry state: the `extensions` array.  The hash table
`extension_index` maps a name to the (unique) registration carrying it,
modelled by `regFindIdx` below. -/
structure Registry where
  regs : List ExtReg
  deriving DecidableEq, Repr

/-- The lookup `hash_table_lookup(extension_index, name)`, returning the
index of the registration keyed by `name`. -/
def regFindIdx : List ExtReg → String → Option Nat
  | [], _ => none
  | e :: rest, n =>
    if e.name = n then some 0
    else (regFindIdx rest n).map (· + 1)

/-- Modelled from the spec: the `SIEVE_EXT_ENABLED` macro
(sieve-extensions.h, not part of the provided sources).  A NULL
extension is not enabled; an extension without an id cell is always
enabled; otherwise the extension is enabled iff its id cell holds a
non-negative id (disabling writes -1 into the cell). -/
def extEnabled (e : ExtReg) : Bool :=
  match e.ext with
  | none => false
  | some x => !x.hasId || decide (0 ≤ e.idVal)

/-- The enable block of `_sieve_extension_register`
(sieve-extensions.c): when the registration's extension pointer is still
NULL, an extension with an id cell that is registered with `load=TRUE`
gets its id written into the cell and, if not yet loaded, its load
handler invoked — a failed load aborts (C returns NULL) leaving the
extension pointer NULL and `loaded` FALSE; otherwise the pointer is
filled in.  Returns the updated registry and the registration index on
success. -/
def extEnableBlock (r : Registry) (i : Nat) (ext : ExtDef) (load : Bool) :
    Registry × Option Nat :=
  match r.regs[i]? with
  | none => (r, none)
  | some e =>
    if e.ext.isSome then (r, some i)
    else if ext.hasId && load then
      let e1 := { e with idVal := (e.id : Int) }
      if !e.loaded && !ext.loadOk then
        (⟨r.regs.set i e1⟩, none)
      else
        (⟨r.regs.set i { e1 with loaded := true, ext := some ext }⟩, some i)
    else
      (⟨r.regs.set i { e with ext := some ext }⟩, some i)

/-- Embeds `_sieve_extension_register` (sieve-extensions.c): if the name
is not yet registered a fresh registration is appended, its id being the
current count (`array_count(&extensions)`); then the enable block
runs. -/
def _sieve_extension_register (r : Registry) (ext : ExtDef) (load : Bool) :
    Registry × Option Nat :=
  match regFindIdx r.regs ext.name with
  | some i => extEnableBlock r i ext load
  | none =>
    let i := r.regs.length
    let r1 : Registry :=
      ⟨r.regs ++ [{ name := ext.name, ext := none, id := i, idVal := -1,
                    required := false, loaded := false }]⟩
    extEnableBlock r1 i ext load

/-- The id recorded at registration index `i` (used for the C return
value `ereg->id`). -/
def regIdAt (r : Registry) (i : Nat) : Int :=
  match r.regs[i]? with
  | none => -1
  | some e => (e.id : Int)

/-- Embeds `sieve_extension_register` (sieve-extensions.c): runs
`_sieve_extension_register` and returns the registration's id, or -1 on
failure. -/
def sieve_extension_register (r : Registry) (ext : ExtDef) (load : Bool) :
    Registry × Int :=
  match _sieve_extension_register r ext load with
  | (r', none) => (r', -1)
  | (r', some i) => (r', regIdAt r' i)

/-- Embeds `sieve_extension_require` (sieve-extensions.c): registers
the extension with `load=TRUE`; on success the registration is marked
required and its id returned, on failure -1. -/
def sieve_extension_require (r : Registry) (ext : ExtDef) :
    Registry × Int :=
  match _sieve_extension_register r ext true with
  | (r', none) => (r', -1)
  | (r', some i) =>
    match r'.regs[i]? with
    | none => (r', -1)
    | some e => (⟨r'.regs.set i { e with required := true }⟩, (e.id : Int))

/-- Embeds `sieve_extension_enable` (sieve-extensions.c): when the
extension has an id cell the registration id is written into it and a
not-yet-loaded extension gets its load handler called (result ignored);
`loaded` is set unconditionally.  (C dereferences the extension pointer,
so a registration without one is never passed here.) -/
def extEnable (e : ExtReg) : ExtReg :=
  match e.ext with
  | none => e
  | some x =>
    if x.hasId then { e with idVal := (e.id : Int), loaded := true }
    else { e with loaded := true }

/-- Embeds `sieve_extension_disable` (sieve-extensions.c): when the
extension has an id cell, -1 is written into it. -/
def extDisable (e : ExtReg) : ExtReg :=
  match e.ext with
  | none => e
  | some x =>
    if x.hasId then { e with idVal := -1 }
    else e

/-- The token list of a `sieve_extensions_set_string` argument: the
C parse loop cuts the string at each space and skips empty names.
(The C loop fails to terminate on inputs ending in a space; on all
other inputs it produces exactly these tokens.) -/
def setStringTokens (s : String) : List String :=
  ((splitAux s.data []).map (fun cs => String.mk cs)).filter (fun t => t ≠ "")

/-- The first phase of `sieve_extensions_set_string`
(sieve-extensions.c): each token that does not start with `@` is looked
up in `extension_index`; unknown names are ignored with a warning; the
found registrations accumulate (by identity, modelled as an index) in
the `enabled_extensions` array. -/
def enaIndices (r : Registry) (toks : List String) : List Nat :=
  toks.foldl
    (fun acc name =>
      if strHeadIs '@' name then acc
      else
        match regFindIdx r.regs name with
        | none => acc
        | some i => acc ++ [i])
    []

/-- One iteration of the status loop of `sieve_extensions_set_string`
(sieve-extensions.c), for the registration at index `i`: a registration
whose extension has an id cell and whose name does not start with `@` is
disabled when it is absent from the `enabled_extensions` array and not
required, and enabled otherwise; other registrations are untouched. -/
def applyOne (ena : List Nat) (i : Nat) (e : ExtReg) : ExtReg :=
  match e.ext with
  | none => e
  | some x =>
    if x.hasId && !(strHeadIs '@' e.name) then
      if !(decide (i ∈ ena)) && !e.required then extDisable e
      else extEnable e
    else e

/-- The second phase of `sieve_extensions_set_string`
(sieve-extensions.c): the status loop over all registrations, `i` being
the index of the first entry of the remaining list. -/
def applyExtStatus (ena : List Nat) : Nat → List ExtReg → List ExtReg
  | _, [] => []
  | i, e :: rest => applyOne ena i e :: applyExtStatus ena (i + 1) rest

/-- The token-processing core of `sieve_extensions_set_string`:
collect the named registrations, then set every registration's
status. -/
def sieve_extensions_set_string_tokens (r : Registry) (toks : List String) :
    Registry :=
  ⟨applyExtStatus (enaIndices r toks) 0 r.regs⟩

/-- Embeds `sieve_extensions_set_string` (sieve-extensions.c): a NULL
string enables every registration; otherwise the string is tokenised,
the named registrations are collected, and every registration's status
is set accordingly. -/
def sieve_extensions_set_string (r : Registry) (s : Option String) :
    Registry :=
  match s with
  | none => ⟨r.regs.map extEnable⟩
  | some str => sieve_extensions_set_string_tokens r (setStringTokens str)

/-- Embeds `sieve_extension_get_by_name` (sieve-extensions.c): names
starting with `@` are rejected outright; otherwise the name is looked
up, and the extension is returned only when the registration exists and
is enabled. -/
def sieve_extension_get_by_name (r : Registry) (n : String) :
    Option ExtDef :=
  if strHeadIs '@' n then none
  else
    match regFindIdx r.regs n with
    | none => none
    | some i =>
      match r.regs[i]? with
      | none => none
      | some e => if extEnabled e then e.ext else none

/-- `_list_extension` (sieve-extensions.c): a registration is listed in
the capability string when it is enabled and its extension's name does
not start with `@`. -/
def listExtension (e : ExtReg) : Bool :=
  extEnabled e && !(strHeadIs '@' e.name)

/-- The append loop of `sieve_extensions_get_string`: every listable
registration contributes a space followed by its name. -/
def getStringRest : List ExtReg → String
  | [] => ""
  | e :: rest =>
    (if listExtension e then " " ++ e.name else "") ++ getStringRest rest

/-- The skip loop plus first append of `sieve_extensions_get_string`:
skip to the first listable registration, append its name, then append
the rest with separating spaces. -/
def getStringAux : List ExtReg → String
  | [] => ""
  | e :: rest =>
    if listExtension e then e.name ++ getStringRest rest
    else getStringAux rest

/-- Embeds `sieve_extensions_get_string` (sieve-extensions.c). -/
def sieve_extensions_get_string (r : Registry) : String :=
  getStringAux r.regs

/-- Modelled from the spec: the capability string is "the
space-separated names of all enabled non-hidden extensions, in
registration order" (§6); hidden means the name begins with `@`. -/
def capability_string_spec (r : Registry) : String :=
  String.intercalate " " ((r.regs.filter listExtension).map (·.name))

/-
=======================================================================
Extension registry initialisation (src/lib-sieve/sieve-extensions.c)
=======================================================================
-/

/-- The preloaded comparator pseudo-extension.  Modelled from the spec:
its definition lives in sieve-comparators.c, which is not among the
provided sources; it is one of the hidden (`@`-named) "preloaded trio"
extensions and carries an id cell. -/
def comparator_extension : ExtDef :=
  { name := "@comparators", hasId := true, loadOk := true }

/-- The preloaded match-type pseudo-extension.  Modelled from the spec:
defined in sieve-match-types.c (not among the provided sources); hidden
and carrying an id cell. -/
def match_type_extension : ExtDef :=
  { name := "@match-types", hasId := true, loadOk := true }

/-- The preloaded address-part pseudo-extension
(src/lib-sieve/sieve-address-parts.c): named `@address-parts`, with an
id cell (`ext_my_id`) and a load handler that stores the id. -/
def address_part_extension : ExtDef :=
  { name := "@address-parts", hasId := true, loadOk := true }

/-- The dummy `comparator-i;octet` extension (sieve-extensions.c): all
of its handler fields, including `_id`, are NULL. -/
def comparator_i_octet_extension : ExtDef :=
  { name := "comparator-i;octet", hasId := false, loadOk := true }

/-- The dummy `comparator-i;ascii-casemap` extension
(sieve-extensions.c): all of its handler fields, including `_id`, are
NULL. -/
def comparator_i_ascii_casemap_extension : ExtDef :=
  { name := "comparator-i;ascii-casemap", hasId := false, loadOk := true }

/-- The deprecated `imapflags_extension`
(src/lib-sieve/plugins/imapflags/ext-imapflags.c): its name field reads
"imap4flags" in the provided source, and it has an id cell
(`ext_imapflags_my_id`). -/
def imapflags_extension : ExtDef :=
  { name := "imap4flags", hasId := true, loadOk := true }

/-- The `sieve_core_extensions` table (sieve-extensions.c): the
preloaded trio first, then the dummy comparator extensions, the core
extensions and the plugin extensions, in the order of the C array.
The extensions other than the preloaded trio and the dummies are
modelled from the spec (their defining files are not among the provided
sources): each is named by its Sieve capability string and carries an
id cell and a succeeding load handler. -/
def sieve_core_extensions : List ExtDef :=
  [ comparator_extension, match_type_extension, address_part_extension,
    comparator_i_octet_extension, comparator_i_ascii_casemap_extension,
    { name := "fileinto", hasId := true, loadOk := true },
    { name := "reject", hasId := true, loadOk := true },
    { name := "envelope", hasId := true, loadOk := true },
    { name := "encoded-character", hasId := true, loadOk := true },
    { name := "vacation", hasId := true, loadOk := true },
    { name := "subaddress", hasId := true, loadOk := true },
    { name := "comparator-i;ascii-numeric", hasId := true, loadOk := true },
    { name := "relational", hasId := true, loadOk := true },
    { name := "regex", hasId := true, loadOk := true },
    { name := "imap4flags", hasId := true, loadOk := true },
    { name := "copy", hasId := true, loadOk := true },
    { name := "include", hasId := true, loadOk := true },
    { name := "body", hasId := true, loadOk := true },
    { name := "variables", hasId := true, loadOk := true },
    { name := "enotify", hasId := true, loadOk := true } ]

/-- The `sieve_depricated_extensions` table (sieve-extensions.c). -/
def sieve_depricated_extensions : List ExtDef :=
  [ imapflags_extension ]

/-- Embeds `sieve_extensions_init` (sieve-extensions.c): starting from
an empty registry, every core extension and then every deprecated
extension is registered with `load=TRUE`. -/
def sieve_extensions_init : Registry :=
  (sieve_core_extensions ++ sieve_depricated_extensions).foldl
    (fun r e => (sieve_extension_register r e true).1) ⟨[]⟩

/-
=======================================================================
Concrete sample states (used to evaluate the theorems below on
explicit inputs)
=======================================================================
-/

/-- A one-entry registry holding the `fileinto` extension, enabled and
not required. -/
def sampleRegistryFileinto : Registry :=
  ⟨[{ name := "fileinto", ext := some { name := "fileinto", hasId := true, loadOk := true },
      id := 0, idVal := 0, required := false, loaded := true }]⟩

/-- A one-entry registry holding the `vacation` extension, enabled and
marked required (as `sieve_extension_require` leaves it). -/
def sampleRegistryVacation : Registry :=
  ⟨[{ name := "vacation", ext := some { name := "vacation", hasId := true, loadOk := true },
      id := 0, idVal := 0, required := true, loaded := true }]⟩

/-- A parsed address with both a mailbox and a domain. -/
def addrAlice : MessageAddress := ⟨some "alice", some "example.org"⟩

/-- A parsed address without a domain (e.g. a group phrase), skipped by
the address-matching loop. -/
def addrNoDomain : MessageAddress := ⟨some "bob", none⟩

/-
=======================================================================
Theorems
=======================================================================
-/

/-- C2: executing the size-test opcode, when the limit operand and the
message's physical size are both available, sets the test register to
`size > N` for SIZE-OVER and `size < N` for SIZE-UNDER; in particular
equality yields false for both variants. -/
theorem size_test_strict_comparison (s l : Nat) :
    tst_size_opcode_execute SizeOp.over (some l) (some s) =
      some (decide (s > l)) ∧
    tst_size_opcode_execute SizeOp.under (some l) (some s) =
      some (decide (s < l)) ∧
    (s = l →
      tst_size_opcode_execute SizeOp.over (some l) (some s) = some false ∧
      tst_size_opcode_execute SizeOp.under (some l) (some s) = some false) := by
  refine ⟨rfl, rfl, ?_⟩
  rintro rfl
  simp [tst_size_opcode_execute]

/-- Witness for `size_test_strict_comparison` at size = limit = 7. -/
theorem size_test_strict_comparison_witness :
    tst_size_opcode_execute SizeOp.over (some 7) (some 7) = some false ∧
    tst_size_opcode_execute SizeOp.under (some 7) (some 7) = some false :=
  (size_test_strict_comparison 7 7).2.2 rfl

/-- C3: when `sieve_run` finishes with the normal runtime-failure
status, `sieve_execute` attempts the implicit keep; it returns
KEEP_FAILED exactly when the keep neither succeeded nor temp-failed,
returns TEMP_FAILURE when the keep temp-failed, and keeps the FAILURE
status (message retained) when the keep succeeded. -/
theorem sieve_execute_runtime_failure_implicit_keep
    (execRes keepRes : SieveExec) :
    (sieve_execute SieveExec.failure execRes keepRes).2 = true ∧
    ((sieve_execute SieveExec.failure execRes keepRes).1 =
        SieveExec.keepFailed ↔
      (keepRes ≠ SieveExec.ok ∧ keepRes ≠ SieveExec.tempFailure)) ∧
    (keepRes = SieveExec.tempFailure →
      (sieve_execute SieveExec.failure execRes keepRes).1 =
        SieveExec.tempFailure) ∧
    (keepRes = SieveExec.ok →
      (sieve_execute SieveExec.failure execRes keepRes).1 =
        SieveExec.failure) := by
  cases keepRes <;> simp [sieve_execute, SieveExec.code]

/-- Witness for `sieve_execute_runtime_failure_implicit_keep`: a
temp-failing implicit keep yields TEMP_FAILURE, and the keep was
attempted. -/
theorem sieve_execute_runtime_failure_implicit_keep_witness :
    (sieve_execute SieveExec.failure SieveExec.ok SieveExec.tempFailure).1 =
      SieveExec.tempFailure ∧
    (sieve_execute SieveExec.failure SieveExec.ok SieveExec.tempFailure).2 =
      true :=
  ⟨(sieve_execute_runtime_failure_implicit_keep SieveExec.ok
      SieveExec.tempFailure).2.2.1 rfl,
   (sieve_execute_runtime_failure_implicit_keep SieveExec.ok
      SieveExec.tempFailure).1⟩

/-- C4 counterexample: a still-active multiscript in test mode
(`teststream` attached) with part of the result already executed does
NOT fall back to implicit keep on tempfail — `sieve_multiscript_tempfail`
returns TEMP_FAILURE, not the FAILURE that a successful keep fallback
would produce, and the keep outcome is ignored. -/
theorem multiscript_tempfail_counterexample :
    sieve_multiscript_tempfail
        ⟨SieveExec.ok, true, true, true⟩ SieveExec.ok =
      SieveExec.tempFailure ∧
    sieve_multiscript_tempfail
        ⟨SieveExec.ok, true, true, true⟩ SieveExec.ok ≠
      SieveExec.failure := by
  decide

/-- C4 amended: `sieve_multiscript_tempfail` returns TEMP_FAILURE when
the chain is active and either a test stream is attached or no part of
the result has been executed; only in execute mode (no test stream)
with part of the result already executed does it fall back to implicit
keep, returning FAILURE when the keep succeeds and KEEP_FAILED
otherwise; when the chain is inactive it returns the last recorded
status. -/
theorem multiscript_tempfail_amended :
    (∀ (m : Multiscript) (k : SieveExec), m.active = true →
      (m.teststream = true ∨ m.resultExecuted = false) →
      sieve_multiscript_tempfail m k = SieveExec.tempFailure) ∧
    (∀ m : Multiscript, m.active = true → m.teststream = false →
      m.resultExecuted = true →
      sieve_multiscript_tempfail m SieveExec.ok = SieveExec.failure) ∧
    (∀ (m : Multiscript) (k : SieveExec), m.active = true →
      m.teststream = false → m.resultExecuted = true →
      k ≠ SieveExec.ok →
      sieve_multiscript_tempfail m k = SieveExec.keepFailed) ∧
    (∀ (m : Multiscript) (k : SieveExec), m.active = false →
      sieve_multiscript_tempfail m k = m.status) := by
  refine ⟨?_, ?_, ?_, ?_⟩
  · rintro ⟨st, a, t, ex⟩ k ha h
    subst ha
    rcases h with h | h <;> subst h <;>
      simp [sieve_multiscript_tempfail]
  · rintro ⟨st, a, t, ex⟩ ha ht hex
    subst ha; subst ht; subst hex
    simp [sieve_multiscript_tempfail]
  · rintro ⟨st, a, t, ex⟩ k ha ht hex hk
    subst ha; subst ht; subst hex
    cases k <;> simp_all [sieve_multiscript_tempfail]
  · rintro ⟨st, a, t, ex⟩ k ha
    subst ha
    simp [sieve_multiscript_tempfail]

/-- Witness for `multiscript_tempfail_amended`, evaluating all four
branches on concrete multiscript states. -/
theorem multiscript_tempfail_amended_witness :
    sieve_multiscript_tempfail
        ⟨SieveExec.ok, true, true, true⟩ SieveExec.ok =
      SieveExec.tempFailure ∧
    sieve_multiscript_tempfail
        ⟨SieveExec.ok, true, false, true⟩ SieveExec.ok =
      SieveExec.failure ∧
    sieve_multiscript_tempfail
        ⟨SieveExec.ok, true, false, true⟩ SieveExec.tempFailure =
      SieveExec.keepFailed ∧
    sieve_multiscript_tempfail
        ⟨SieveExec.failure, false, false, false⟩ SieveExec.ok =
      SieveExec.failure :=
  ⟨multiscript_tempfail_amended.1 _ _ rfl (Or.inl rfl),
   multiscript_tempfail_amended.2.1 _ rfl rfl rfl,
   multiscript_tempfail_amended.2.2.1 _ _ rfl rfl rfl (by decide),
   multiscript_tempfail_amended.2.2.2 _ _ rfl⟩

/-- C9: size-test validation succeeds exactly when one `:over`/`:under`
tag is present (and the limit argument is a number); with no tag the
required-tag diagnostic is reported, and a second tag occurrence is
rejected by the tag validators with the duplicate-tag diagnostic. -/
theorem tst_size_validation_exactly_one_tag :
    (∀ (tags : List SizeTag) (argIsNumber : Bool),
      tst_size_validation tags argIsNumber = Except.ok () ↔
        (tags.length = 1 ∧ argIsNumber = true)) ∧
    (∀ b : Bool, tst_size_validation [] b =
      Except.error tstSizeErrorReqTag) ∧
    (∀ (t₁ t₂ : SizeTag) (rest : List SizeTag) (b : Bool),
      tst_size_validation (t₁ :: t₂ :: rest) b =
        Except.error tstSizeErrorDupTag) := by
  refine ⟨?_, ?_, ?_⟩
  · intro tags b
    match tags with
    | [] =>
      simp [tst_size_validation, tst_size_process_tags, tst_size_validate]
    | [t] =>
      cases t <;> cases b <;>
        simp [tst_size_validation, tst_size_process_tags,
          tst_size_validate_tag, tst_size_validate]
    | t₁ :: t₂ :: rest =>
      cases t₁ <;>
        simp [tst_size_validation, tst_size_process_tags,
          tst_size_validate_tag]
  · intro b
    simp [tst_size_validation, tst_size_process_tags, tst_size_validate]
  · intro t₁ t₂ rest b
    cases t₁ <;>
      simp [tst_size_validation, tst_size_process_tags,
        tst_size_validate_tag]

/-- C1 counterexample: in the script `other; require; require` the
require command at position 2 validates successfully (its immediate
predecessor is a require) even though the non-require command at
position 0 precedes it — so a require command can validate successfully
without being preceded only by require commands, and no diagnostic is
emitted for it. -/
theorem require_placement_counterexample :
    (validate_require_at [TopCmd.other, TopCmd.require, TopCmd.require] 2).1 =
      true ∧
    (validate_require_at [TopCmd.other, TopCmd.require, TopCmd.require] 2).2 =
      none ∧
    [TopCmd.other, TopCmd.require, TopCmd.require][0]? = some TopCmd.other ∧
    TopCmd.other ≠ TopCmd.require := by
  refine ⟨rfl, rfl, rfl, by decide⟩

/-- C1 amended: `cmd_require_validate` checks only the immediately
preceding command: a require command validates successfully exactly when
it is at top level and is either the first command or immediately
preceded by another require command; any other placement emits the fatal
placement diagnostic and fails.  Consequently whole-script validation
still fails whenever a require command follows some non-require command,
because the first require after the gap fails with that diagnostic. -/
theorem require_placement_amended :
    (∀ (isFirst : Bool) (prev : Option TopCmd),
      cmd_require_validate_place false isFirst prev =
        (false, some requirePlacementMsg)) ∧
    (∀ cmds : List TopCmd, validate_require_at cmds 0 = (true, none)) ∧
    (∀ (cmds : List TopCmd) (k : Nat), k ≠ 0 → k ≤ cmds.length →
      ((validate_require_at cmds k).1 = true ↔
        cmds[k - 1]? = some TopCmd.require)) ∧
    (∀ (cmds : List TopCmd) (k : Nat),
      (validate_require_at cmds k).1 = false →
      (validate_require_at cmds k).2 = some requirePlacementMsg) ∧
    (∀ (cmds : List TopCmd) (j k : Nat), j < k → k < cmds.length →
      cmds[k]? = some TopCmd.require → cmds[j]? ≠ some TopCmd.require →
      ∃ m, m ≤ k ∧ cmds[m]? = some TopCmd.require ∧
        (validate_require_at cmds m).1 = false ∧
        (validate_require_at cmds m).2 = some requirePlacementMsg) := by
  have hchar : ∀ (cmds : List TopCmd) (k : Nat), k ≠ 0 → k ≤ cmds.length →
      ((validate_require_at cmds k).1 = true ↔
        cmds[k - 1]? = some TopCmd.require) := by
    intro cmds k hk hlen
    have h1 : k - 1 < cmds.length := by omega
    have hget : cmds[k - 1]? = some cmds[k - 1] :=
      List.getElem?_eq_getElem h1
    rw [hget]
    cases hc : cmds[k - 1] <;>
      simp [validate_require_at, cmd_require_validate_place,
        prevIsNonRequire, hk, hget, hc]
  refine ⟨?_, ?_, hchar, ?_, ?_⟩
  · intro isFirst prev
    simp [cmd_require_validate_place]
  · intro cmds
    simp [validate_require_at, cmd_require_validate_place,
      prevIsNonRequire]
  · intro cmds k
    by_cases hk : k = 0
    · subst hk
      simp [validate_require_at, cmd_require_validate_place,
        prevIsNonRequire]
    · cases hprev : (if k = 0 then none else cmds[k - 1]?) with
      | none =>
        simp only [validate_require_at, hprev]
        simp [cmd_require_validate_place, prevIsNonRequire, hk]
      | some c =>
        simp only [validate_require_at, hprev]
        cases c <;>
          simp [cmd_require_validate_place, prevIsNonRequire, hk]
  · intro cmds j k hjk hklen hkreq hjnot
    have hex : ∃ m, j < m ∧ cmds[m]? = some TopCmd.require := ⟨k, hjk, hkreq⟩
    have hspec := Nat.find_spec hex
    have hmk : Nat.find hex ≤ k := Nat.find_min' hex ⟨hjk, hkreq⟩
    obtain ⟨hjm, hmreq⟩ := hspec
    have hm0 : Nat.find hex ≠ 0 := by omega
    have hmlen : Nat.find hex < cmds.length := Nat.lt_of_le_of_lt hmk hklen
    have hm1len : Nat.find hex - 1 < cmds.length := by omega
    have hgetm1 : cmds[Nat.find hex - 1]? = some cmds[Nat.find hex - 1] :=
      List.getElem?_eq_getElem hm1len
    have hne : cmds[Nat.find hex - 1] ≠ TopCmd.require := by
      intro hreq
      rcases Nat.lt_or_ge j (Nat.find hex - 1) with h | h
      · exact Nat.find_min hex (m := Nat.find hex - 1) (by omega)
          ⟨h, by rw [hgetm1, hreq]⟩
      · have : Nat.find hex - 1 = j := by omega
        exact hjnot (by rw [← this, hgetm1, hreq])
    refine ⟨Nat.find hex, hmk, hmreq, ?_, ?_⟩ <;>
      · cases hc : cmds[Nat.find hex - 1] <;>
          simp_all [validate_require_at, cmd_require_validate_place,
            prevIsNonRequire, hm0, hgetm1]

/-- Witness for `require_placement_amended`: concrete instances of each
conjunct, in particular the script `other; require` in which the require
command at position 1 fails with the placement diagnostic. -/
theorem require_placement_amended_witness :
    cmd_require_validate_place false true none =
      (false, some requirePlacementMsg) ∧
    validate_require_at [TopCmd.require] 0 = (true, none) ∧
    ((validate_require_at [TopCmd.require, TopCmd.require] 1).1 = true ↔
      [TopCmd.require, TopCmd.require][0]? = some TopCmd.require) ∧
    (∃ m, m ≤ 1 ∧
      [TopCmd.other, TopCmd.require][m]? = some TopCmd.require ∧
      (validate_require_at [TopCmd.other, TopCmd.require] m).1 = false ∧
      (validate_require_at [TopCmd.other, TopCmd.require] m).2 =
        some requirePlacementMsg) :=
  ⟨require_placement_amended.1 true none,
   require_placement_amended.2.1 [TopCmd.require],
   require_placement_amended.2.2.1 [TopCmd.require, TopCmd.require] 1
     (by decide) (by decide),
   require_placement_amended.2.2.2.2 [TopCmd.other, TopCmd.require] 0 1
     (by decide) (by decide) (by decide) (by decide)⟩

/-- A successful `regFindIdx` lookup returns an index holding a
registration with the looked-up name. -/
theorem regFindIdx_some_name :
    ∀ (l : List ExtReg) (n : String) (i : Nat),
      regFindIdx l n = some i → ∃ e, l[i]? = some e ∧ e.name = n := by
  intro l
  induction l with
  | nil => intro n i h; simp [regFindIdx] at h
  | cons b rest ih =>
    intro n i h
    by_cases hb : b.name = n
    · simp [regFindIdx, hb] at h
      subst h
      exact ⟨b, by simp, hb⟩
    · simp [regFindIdx, hb] at h
      obtain ⟨i', hi', rfl⟩ := h
      obtain ⟨e, he, hn⟩ := ih n i' hi'
      exact ⟨e, by simpa using he, hn⟩

/-- With pairwise distinct names, the registration at index `i` is
found by looking up its own name. -/
theorem regFindIdx_of_getElem? :
    ∀ (l : List ExtReg) (i : Nat) (e : ExtReg),
      l[i]? = some e → (l.map (fun x => x.name)).Nodup →
      regFindIdx l e.name = some i := by
  intro l
  induction l with
  | nil => intro i e h _; simp at h
  | cons b rest ih =>
    intro i e h hnd
    simp only [List.map_cons, List.nodup_cons] at hnd
    obtain ⟨hb, hrest⟩ := hnd
    match i with
    | 0 =>
      simp at h
      subst h
      simp [regFindIdx]
    | j + 1 =>
      simp at h
      have hmem : e ∈ rest := List.getElem?_mem h
      have hne : b.name ≠ e.name := by
        intro heq
        exact hb (heq ▸ List.mem_map_of_mem (fun x => x.name) hmem)
      simp [regFindIdx, hne, ih j e h hrest]

/-- A name carried by no registration is not found. -/
theorem regFindIdx_none :
    ∀ (l : List ExtReg) (n : String),
      (∀ e ∈ l, e.name ≠ n) → regFindIdx l n = none := by
  intro l
  induction l with
  | nil => intro n _; rfl
  | cons b rest ih =>
    intro n h
    have hb : b.name ≠ n := h b (by simp)
    simp [regFindIdx, hb, ih n (fun e he => h e (by simp [he]))]

/-- Indexing the status loop of `sieve_extensions_set_string`: the
entry at index `i` of the output is `applyOne` of the input entry. -/
theorem applyExtStatus_getElem? (ena : List Nat) :
    ∀ (l : List ExtReg) (n i : Nat),
      (applyExtStatus ena n l)[i]? = (l[i]?).map (applyOne ena (n + i)) := by
  intro l
  induction l with
  | nil => intro n i; simp [applyExtStatus]
  | cons e rest ih =>
    intro n i
    match i with
    | 0 => simp [applyExtStatus]
    | j + 1 =>
      simp only [applyExtStatus, List.getElem?_cons_succ, ih (n + 1) j]
      have : n + 1 + j = n + (j + 1) := by omega
      rw [this]

/-- Membership in the `enabled_extensions` accumulation of
`sieve_extensions_set_string`: an index is collected iff some token,
not starting with `@`, looks it up. -/
theorem enaIndices_mem_aux (r : Registry) :
    ∀ (toks : List String) (acc : List Nat) (j : Nat),
      (j ∈ toks.foldl
        (fun acc name =>
          if strHeadIs '@' name then acc
          else
            match regFindIdx r.regs name with
            | none => acc
            | some i => acc ++ [i])
        acc) ↔
      (j ∈ acc ∨ ∃ t ∈ toks, strHeadIs '@' t = false ∧
        regFindIdx r.regs t = some j) := by
  intro toks
  induction toks with
  | nil => intro acc j; simp
  | cons t ts ih =>
    intro acc j
    rw [List.foldl_cons, ih]
    by_cases ht : strHeadIs '@' t = true
    · simp [ht]
    · have ht' : strHeadIs '@' t = false := by simpa using ht
      cases hlk : regFindIdx r.regs t with
      | none => simp [ht', hlk]
      | some i =>
        simp [ht', hlk, List.mem_append, or_assoc]
        try tauto

/-- Membership in `enaIndices`. -/
theorem enaIndices_mem (r : Registry) (toks : List String) (j : Nat) :
    j ∈ enaIndices r toks ↔
      ∃ t ∈ toks, strHeadIs '@' t = false ∧
        regFindIdx r.regs t = some j := by
  rw [enaIndices, enaIndices_mem_aux]
  simp

/-- Enabling a registration whose extension pointer is set always
leaves it enabled: with an id cell the cell gets the non-negative
registration id, without one the extension counts as enabled. -/
theorem extEnabled_extEnable (e : ExtReg) (x : ExtDef)
    (hx : e.ext = some x) : extEnabled (extEnable e) = true := by
  cases hh : x.hasId <;> simp [extEnable, extEnabled, hx, hh]

/-- C5: a required registration is never disabled by
`sieve_extensions_set_string`: whatever the extension list (in
particular one omitting its name), a required, currently enabled
registration is still enabled afterwards; and any registration the call
disables was not required and its name was absent from the token
list. -/
theorem required_extensions_not_disabled
    (r : Registry) (s : String) (i : Nat) (e : ExtReg)
    (hnd : (r.regs.map (fun x => x.name)).Nodup)
    (hi : r.regs[i]? = some e)
    (hen : extEnabled e = true) :
    (e.required = true →
      ∃ e', (sieve_extensions_set_string r (some s)).regs[i]? = some e' ∧
        extEnabled e' = true) ∧
    (∀ e', (sieve_extensions_set_string r (some s)).regs[i]? = some e' →
      extEnabled e' = false →
      e.required = false ∧ e.name ∉ setStringTokens s) := by
  have hidx : (sieve_extensions_set_string r (some s)).regs[i]? =
      some (applyOne (enaIndices r (setStringTokens s)) i e) := by
    simp [sieve_extensions_set_string, sieve_extensions_set_string_tokens,
      applyExtStatus_getElem?, hi]
  set ena := enaIndices r (setStringTokens s) with hena
  constructor
  · intro hreq
    refine ⟨_, hidx, ?_⟩
    cases hx : e.ext with
    | none => simp [extEnabled, hx] at hen
    | some x =>
      simp only [applyOne, hx]
      by_cases hcond : (x.hasId && !(strHeadIs '@' e.name)) = true
      · rw [if_pos hcond, if_neg (by simp [hreq])]
        exact extEnabled_extEnable e x hx
      · rw [if_neg hcond]
        exact hen
  · intro e' he' hdis
    rw [hidx] at he'
    injection he' with he'
    subst he'
    cases hx : e.ext with
    | none => simp [extEnabled, hx] at hen
    | some x =>
      simp only [applyOne, hx] at hdis
      by_cases hcond : (x.hasId && !(strHeadIs '@' e.name)) = true
      · obtain ⟨hhasid, hhead⟩ :
            x.hasId = true ∧ strHeadIs '@' e.name = false := by
          simpa using hcond
        rw [if_pos hcond] at hdis
        by_cases hdisbr : (!(decide (i ∈ ena)) && !e.required) = true
        · rw [if_pos hdisbr] at hdis
          simp only [Bool.and_eq_true, Bool.not_eq_true',
            decide_eq_false_iff_not] at hdisbr
          obtain ⟨hnmem, hreq⟩ := hdisbr
          refine ⟨hreq, ?_⟩
          intro hmem
          have hfind : regFindIdx r.regs e.name = some i :=
            regFindIdx_of_getElem? r.regs i e hi hnd
          exact hnmem ((enaIndices_mem r _ i).mpr
            ⟨e.name, hmem, hhead, hfind⟩)
        · rw [if_neg hdisbr] at hdis
          rw [extEnabled_extEnable e x hx] at hdis
          cases hdis
      · rw [if_neg hcond] at hdis
        rw [hen] at hdis
        cases hdis

/-- Witness for `required_extensions_not_disabled`: the required
`vacation` extension stays enabled after `set_string "fileinto"`, a
list omitting its name. -/
theorem required_extensions_not_disabled_witness :
    ∃ e', (sieve_extensions_set_string sampleRegistryVacation
        (some "fileinto")).regs[0]? = some e' ∧
      extEnabled e' = true :=
  (required_extensions_not_disabled sampleRegistryVacation "fileinto" 0
      { name := "vacation",
        ext := some { name := "vacation", hasId := true, loadOk := true },
        id := 0, idVal := 0, required := true, loaded := true }
      (by decide) (by decide) (by decide)).1 rfl

/-- C8 counterexample: with the `fileinto` extension registered and
enabled, passing the list `"+fileinto"` to
`sieve_extensions_set_string` does not enable `fileinto` — the token is
not recognised (unknown-extension warning) and `fileinto`, treated as
absent from the list, ends up disabled. -/
theorem set_string_plus_token_counterexample :
    sampleRegistryFileinto.regs.map extEnabled = [true] ∧
    setStringTokens "+fileinto" = ["+fileinto"] ∧
    (sieve_extensions_set_string sampleRegistryFileinto
        (some "+fileinto")).regs.map extEnabled = [false] := by
  refine ⟨rfl, rfl, ?_⟩
  decide

/-- C8 amended: this version of `sieve_extensions_set_string` does not
recognise the `+name`/`-name` syntax: provided no registered extension
name itself begins with `+` or `-`, a token carrying such a prefix
matches no registration, is ignored with an unknown-extension warning,
and the outcome is exactly as if the token were absent from the list
(so the named extension is disabled unless required, like any omitted
extension). -/
theorem set_string_plus_minus_not_recognized
    (r : Registry) (pre suf : List String) (t : String)
    (ht : strHeadIs '+' t = true ∨ strHeadIs '-' t = true)
    (hnames : ∀ e ∈ r.regs, strHeadIs '+' e.name = false ∧
      strHeadIs '-' e.name = false) :
    sieve_extensions_set_string_tokens r (pre ++ t :: suf) =
      sieve_extensions_set_string_tokens r (pre ++ suf) := by
  have hlk : regFindIdx r.regs t = none := by
    apply regFindIdx_none
    intro e he heq
    obtain ⟨h1, h2⟩ := hnames e he
    cases ht with
    | inl h => rw [heq, h] at h1; cases h1
    | inr h => rw [heq, h] at h2; cases h2
  have hena : enaIndices r (pre ++ t :: suf) = enaIndices r (pre ++ suf) := by
    unfold enaIndices
    rw [List.foldl_append, List.foldl_append, List.foldl_cons]
    by_cases h : strHeadIs '@' t = true
    · simp [h]
    · simp [h, hlk]
  unfold sieve_extensions_set_string_tokens
  rw [hena]

/-- Witness for `set_string_plus_minus_not_recognized`: on the
one-extension registry, processing `"+fileinto fileinto"` equals
processing `"fileinto"`. -/
theorem set_string_plus_minus_not_recognized_witness :
    sieve_extensions_set_string_tokens sampleRegistryFileinto
        ([] ++ "+fileinto" :: ["fileinto"]) =
      sieve_extensions_set_string_tokens sampleRegistryFileinto
        ([] ++ ["fileinto"]) :=
  set_string_plus_minus_not_recognized sampleRegistryFileinto []
    ["fileinto"] "+fileinto" (Or.inl (by decide)) (by decide)

/-- The append loop of `sieve_extensions_get_string` computes the tail
of the space-separated join: prefixing any accumulated string, it
produces `String.intercalate.go` over the listable names. -/
theorem getStringRest_go (l : List ExtReg) :
    ∀ acc : String,
      String.intercalate.go acc " "
          ((l.filter listExtension).map (fun e => e.name)) =
        acc ++ getStringRest l := by
  induction l with
  | nil =>
    intro acc
    simp [getStringRest, String.intercalate.go]
  | cons e rest ih =>
    intro acc
    cases hl : listExtension e
    · simp [getStringRest, hl, List.filter_cons, ih]
    · simp only [List.filter_cons_of_pos hl, List.map_cons,
        String.intercalate.go, getStringRest, hl]
      rw [ih (acc ++ " " ++ e.name)]
      simp [String.append_assoc]

/-- The skip-then-append loop of `sieve_extensions_get_string` produces
exactly the space-separated join of the listable names. -/
theorem getStringAux_eq (l : List ExtReg) :
    getStringAux l =
      String.intercalate " "
        ((l.filter listExtension).map (fun e => e.name)) := by
  induction l with
  | nil => rfl
  | cons e rest ih =>
    cases hl : listExtension e
    · simp [getStringAux, hl, List.filter_cons, ih]
    · simp only [List.filter_cons_of_pos hl, List.map_cons, getStringAux,
        hl, String.intercalate]
      rw [getStringRest_go rest e.name]
      simp

/-- C7: `sieve_extensions_get_string` returns exactly the
space-separated names of the enabled registrations whose names do not
begin with `@`, in registration order; and
`sieve_extension_get_by_name` returns no extension for any name
beginning with `@`. -/
theorem capability_string_correct :
    (∀ r : Registry,
      sieve_extensions_get_string r = capability_string_spec r) ∧
    (∀ (r : Registry) (n : String), strHeadIs '@' n = true →
      sieve_extension_get_by_name r n = none) := by
  constructor
  · intro r
    exact getStringAux_eq r.regs
  · intro r n h
    simp [sieve_extension_get_by_name, h]

/-- Witness for `capability_string_correct`: the hidden name
`@comparators` resolves to no extension even on a registry that would
otherwise list extensions. -/
theorem capability_string_correct_witness :
    sieve_extension_get_by_name sampleRegistryFileinto "@comparators" =
      none ∧
    sieve_extensions_get_string sampleRegistryFileinto =
      capability_string_spec sampleRegistryFileinto :=
  ⟨capability_string_correct.2 sampleRegistryFileinto "@comparators"
     (by decide),
   capability_string_correct.1 sampleRegistryFileinto⟩

/-- Setting index `i` to an entry with the same name and id leaves the
(name, id) view of every index unchanged. -/
theorem set_preserves_nameId (r : Registry) (i : Nat) (e e' : ExtReg)
    (hie : r.regs[i]? = some e) (hn : e'.name = e.name)
    (hid : e'.id = e.id) (j : Nat) :
    ((r.regs.set i e')[j]?).map (fun x => (x.name, x.id)) =
      (r.regs[j]?).map (fun x => (x.name, x.id)) := by
  by_cases hij : i = j
  · subst hij
    obtain ⟨hilen, -⟩ := List.getElem?_eq_some_iff.mp hie
    rw [List.getElem?_set_self hilen, hie]
    simp [hn, hid]
  · rw [List.getElem?_set_ne hij]

/-- The enable block of `_sieve_extension_register` never changes the
name or the id of any registration. -/
theorem extEnableBlock_nameId (r : Registry) (i : Nat) (ext : ExtDef)
    (load : Bool) (j : Nat) :
    (((extEnableBlock r i ext load).1).regs[j]?).map
        (fun x => (x.name, x.id)) =
      (r.regs[j]?).map (fun x => (x.name, x.id)) := by
  unfold extEnableBlock
  cases hie : r.regs[i]? with
  | none => rfl
  | some e =>
    dsimp only
    split
    · rfl
    · split
      · split
        · simpa using set_preserves_nameId r i e ({ e with idVal := (e.id : Int) }) hie rfl rfl j
        · simpa using set_preserves_nameId r i e ({ e with idVal := (e.id : Int), loaded := true, ext := some ext }) hie rfl rfl j
      · simpa using set_preserves_nameId r i e ({ e with ext := some ext }) hie rfl rfl j

/-- The enable block of `_sieve_extension_register` never changes the
number of registrations. -/
theorem extEnableBlock_length (r : Registry) (i : Nat) (ext : ExtDef)
    (load : Bool) :
    ((extEnableBlock r i ext load).1).regs.length = r.regs.length := by
  unfold extEnableBlock
  cases hie : r.regs[i]? with
  | none => rfl
  | some e =>
    dsimp only
    split
    · rfl
    · split
      · split <;> simp
      · simp

/-- The first component of `sieve_extension_register` is that of
`_sieve_extension_register`. -/
theorem sieve_extension_register_fst (r : Registry) (ext : ExtDef)
    (load : Bool) :
    (sieve_extension_register r ext load).1 =
      (_sieve_extension_register r ext load).1 := by
  unfold sieve_extension_register
  cases h : _sieve_extension_register r ext load with
  | mk r' oi => cases oi <;> simp

/-- `_sieve_extension_register` preserves the (name, id) view of every
index already present. -/
theorem _sieve_extension_register_nameId (r : Registry) (ext : ExtDef)
    (load : Bool) (j : Nat) (hj : j < r.regs.length) :
    (((_sieve_extension_register r ext load).1).regs[j]?).map
        (fun x => (x.name, x.id)) =
      (r.regs[j]?).map (fun x => (x.name, x.id)) := by
  unfold _sieve_extension_register
  cases hf : regFindIdx r.regs ext.name with
  | some i => exact extEnableBlock_nameId r i ext load j
  | none =>
    dsimp only
    rw [extEnableBlock_nameId]
    rw [List.getElem?_append_left hj]

/-- Registering a fresh name appends a registration whose id is the
previous registration count and whose name is the extension's name. -/
theorem _sieve_extension_register_fresh (r : Registry) (ext : ExtDef)
    (load : Bool) (hf : regFindIdx r.regs ext.name = none) :
    ∃ x, ((_sieve_extension_register r ext load).1).regs[r.regs.length]? =
        some x ∧ x.id = r.regs.length ∧ x.name = ext.name := by
  unfold _sieve_extension_register
  rw [hf]
  dsimp only
  unfold extEnableBlock
  rw [List.getElem?_concat_length]
  dsimp only
  have hlen : r.regs.length < (r.regs ++
      [{ name := ext.name, ext := none, id := r.regs.length, idVal := -1,
         required := false, loaded := false : ExtReg }]).length := by
    simp
  split
  · dsimp only
    exact ⟨_, by rw [List.getElem?_concat_length], rfl, rfl⟩
  · split
    · split
      · dsimp only
        exact ⟨_, by rw [List.getElem?_set_self hlen], rfl, rfl⟩
      · dsimp only
        exact ⟨_, by rw [List.getElem?_set_self hlen], rfl, rfl⟩
    · dsimp only
      exact ⟨_, by rw [List.getElem?_set_self hlen], rfl, rfl⟩

/-- C6: extension ids are dense, assigned in registration order from 0,
and stable: `sieve_extensions_init` gives the preloaded trio the lowest
ids 0, 1, 2 and ids 0..19 overall; registering an already-registered
name returns the existing id and leaves the registry untouched;
registration never changes the name or id of an existing entry; and a
fresh name is appended with id equal to the previous count. -/
theorem extension_ids_dense_stable :
    ((sieve_extensions_init.regs.map (fun e => (e.name, e.id))).take 3 =
      [("@comparators", 0), ("@match-types", 1), ("@address-parts", 2)]) ∧
    (sieve_extensions_init.regs.map (fun e => e.id) = List.range 20) ∧
    (∀ (r : Registry) (ext : ExtDef) (load : Bool) (i : Nat) (e : ExtReg),
      regFindIdx r.regs ext.name = some i → r.regs[i]? = some e →
      e.ext.isSome = true →
      sieve_extension_register r ext load = (r, (e.id : Int))) ∧
    (∀ (r : Registry) (ext : ExtDef) (load : Bool) (j : Nat),
      j < r.regs.length →
      (((sieve_extension_register r ext load).1).regs[j]?).map
          (fun x => (x.name, x.id)) =
        (r.regs[j]?).map (fun x => (x.name, x.id))) ∧
    (∀ (r : Registry) (ext : ExtDef) (load : Bool),
      regFindIdx r.regs ext.name = none →
      ∃ x, ((sieve_extension_register r ext load).1).regs[r.regs.length]? =
          some x ∧ x.id = r.regs.length ∧ x.name = ext.name) := by
  refine ⟨by decide, by decide, ?_, ?_, ?_⟩
  · intro r ext load i e hf hie hext
    unfold sieve_extension_register _sieve_extension_register
    rw [hf]
    dsimp only
    unfold extEnableBlock
    rw [hie]
    dsimp only
    rw [if_pos hext]
    dsimp only
    unfold regIdAt
    rw [hie]
  · intro r ext load j hj
    rw [sieve_extension_register_fst]
    exact _sieve_extension_register_nameId r ext load j hj
  · intro r ext load hf
    rw [sieve_extension_register_fst]
    exact _sieve_extension_register_fresh r ext load hf

/-- Witness for `extension_ids_dense_stable`: re-registering `fileinto`
on the initial registry returns its existing id 5 and changes nothing;
the existing entries keep their (name, id); and registering a fresh
name appends it at id 20. -/
theorem extension_ids_dense_stable_witness :
    sieve_extension_register sieve_extensions_init
        { name := "fileinto", hasId := true, loadOk := true } true =
      (sieve_extensions_init, (5 : Int)) ∧
    ((((sieve_extension_register sieve_extensions_init
        { name := "fileinto", hasId := true, loadOk := true } true).1).regs[2]?).map
          (fun x => (x.name, x.id)) =
      (sieve_extensions_init.regs[2]?).map (fun x => (x.name, x.id))) ∧
    (∃ x, ((sieve_extension_register sieve_extensions_init
        { name := "spamtest", hasId := true, loadOk := true } true).1).regs[
          sieve_extensions_init.regs.length]? = some x ∧
      x.id = sieve_extensions_init.regs.length ∧ x.name = "spamtest") :=
  ⟨extension_ids_dense_stable.2.2.1 sieve_extensions_init
     { name := "fileinto", hasId := true, loadOk := true } true 5
     { name := "fileinto",
       ext := some { name := "fileinto", hasId := true, loadOk := true },
       id := 5, idVal := 5, required := false, loaded := true }
     (by decide) (by decide) (by decide),
   extension_ids_dense_stable.2.2.2.1 sieve_extensions_init
     { name := "fileinto", hasId := true, loadOk := true } true 2
     (by decide),
   extension_ids_dense_stable.2.2.2.2 sieve_extensions_init
     { name := "spamtest", hasId := true, loadOk := true } true
     (by decide)⟩

/-- Unfolding lemma: one step of the `sieve_address_match` loop.  The
head address contributes iff it has a domain and its extracted part
exists and matches; otherwise the loop continues. -/
theorem sieve_address_match_cons (f : MessageAddress → Option String)
    (g : String → Bool) (a : MessageAddress) (rest : List MessageAddress) :
    sieve_address_match f g (a :: rest) =
      ((a.domain.isSome && (f a).elim false g) ||
        sieve_address_match f g rest) := by
  cases hd : a.domain with
  | none => simp [sieve_address_match, hd]
  | some d =>
    cases hf : f a with
    | none => simp [sieve_address_match, hd, hf]
    | some p =>
      cases hg : g p <;> simp [sieve_address_match, hd, hf, hg]

/-- C10: `sieve_address_match` returns true iff some parsed address
with a non-null domain yields a non-null extracted address-part that
matches; addresses without a domain are skipped entirely (removing one
never changes the outcome); and iteration stops at the first matching
address (everything after it is irrelevant).  The parsed address list
stands for the output of `message_address_parse` on the input data. -/
theorem sieve_address_match_characterization :
    (∀ (extract : MessageAddress → Option String)
        (matchValue : String → Bool) (addrs : List MessageAddress),
      sieve_address_match extract matchValue addrs = true ↔
        ∃ a ∈ addrs, a.domain.isSome = true ∧
          ∃ p, extract a = some p ∧ matchValue p = true) ∧
    (∀ (extract : MessageAddress → Option String)
        (matchValue : String → Bool)
        (pre suf : List MessageAddress) (a : MessageAddress),
      a.domain = none →
      sieve_address_match extract matchValue (pre ++ a :: suf) =
        sieve_address_match extract matchValue (pre ++ suf)) ∧
    (∀ (extract : MessageAddress → Option String)
        (matchValue : String → Bool)
        (pre suf suf' : List MessageAddress) (a : MessageAddress)
        (p : String),
      a.domain.isSome = true → extract a = some p → matchValue p = true →
      sieve_address_match extract matchValue (pre ++ a :: suf) =
        sieve_address_match extract matchValue (pre ++ a :: suf')) := by
  refine ⟨?_, ?_, ?_⟩
  · intro f g addrs
    induction addrs with
    | nil => simp [sieve_address_match]
    | cons a rest ih =>
      rw [sieve_address_match_cons]
      cases hf : f a <;>
        simp [hf, ih, Bool.or_eq_true, Bool.and_eq_true]
  · intro f g pre suf a hd
    induction pre with
    | nil => simp [sieve_address_match_cons, hd]
    | cons b pre ih => simp [sieve_address_match_cons, ih]
  · intro f g pre suf suf' a p hd hf hg
    induction pre with
    | nil => simp [sieve_address_match_cons, hd, hf, hg]
    | cons b pre ih => simp [sieve_address_match_cons, ih]

/-- Witness for `sieve_address_match_characterization` on concrete
addresses: skipping the domainless address, matching `alice` by
localpart, and ignoring everything after the match. -/
theorem sieve_address_match_characterization_witness :
    (sieve_address_match addrp_localpart_extract_from (fun s => s == "alice")
        ([] ++ addrNoDomain :: [addrAlice]) =
      sieve_address_match addrp_localpart_extract_from (fun s => s == "alice")
        ([] ++ [addrAlice])) ∧
    (sieve_address_match addrp_localpart_extract_from (fun s => s == "alice")
        ([] ++ addrAlice :: [addrNoDomain]) =
      sieve_address_match addrp_localpart_extract_from (fun s => s == "alice")
        ([] ++ addrAlice :: [])) ∧
    sieve_address_match addrp_localpart_extract_from (fun s => s == "alice")
      [addrNoDomain, addrAlice] = true :=
  ⟨sieve_address_match_characterization.2.1 _ _ [] [addrAlice] addrNoDomain
     rfl,
   sieve_address_match_characterization.2.2 _ _ [] [addrNoDomain] []
     addrAlice "alice" rfl rfl (by decide),
   (sieve_address_match_characterization.1 _ _ _).mpr
     ⟨addrAlice, by decide, rfl, "alice", rfl, by decide⟩⟩

end Pigeonhole
